import Mathlib

/-!
Verification of the sliding-tile ("N-puzzle") search engine.

The repository's driver notebook (`src/src.ipynb`) constructs a
`SlidingTiles(9)` puzzle, picks the Manhattan-distance heuristic, and runs
`Solver.solve(algorithm='a_star', max_iteration=50000)`.  The notebook records
the concrete inputs and outputs of that run (the start state, its fixed-width
serialization `'056382741'`, the returned 3-tuple with its 31-entry path,
length field 26 and expansion count 5473); those recorded values are
transcribed below as `recorded_*` definitions.  The bodies of `SlidingTiles`
and `Solver` are imported by the notebook but are not part of the sources, so
the operations they provide are modelled from the specification, each marked
`Modelled from the spec:` in its doc comment.
-/

namespace NPuzzle

/-- A valid board configuration over `n` cells is a permutation of the labels
`0 .. n-1` (0 is the blank): every label appears exactly once. -/
def ValidPerm (n : Nat) (s : List Nat) : Prop := s.Perm (List.range n)

instance (n : Nat) (s : List Nat) : Decidable (ValidPerm n s) :=
  inferInstanceAs (Decidable (s.Perm (List.range n)))

/-- The canonical goal state for board width `N`: tiles `1 .. N*N-1` in
row-major order followed by the blank in the last cell (the notebook's goal is
`[1, 2, 3, 4, 5, 6, 7, 8, 0]` for `N = 3`). -/
def goal_state (N : Nat) : List Nat :=
  (List.range (N * N - 1)).map (fun i => i + 1) ++ [0]

/-- Modelled from the spec: `to_string` lives in the `SlidingTiles` class,
which the notebook imports but whose body is not in the sources.  The spec
fixes a deterministic fixed-width textual form, one digit per tile when
`N² ≤ 10`; the notebook records `to_string(get_start()) = '056382741'` for the
start state `[0, 5, 6, 3, 8, 2, 7, 4, 1]`. -/
def to_string (s : List Nat) : String := String.mk (s.map Nat.digitChar)

/-- Modelled from the spec: `from_string` lives in the `SlidingTiles` class,
which is not in the sources; the spec requires it to invert `to_string`
exactly.  Each character is decoded back to its digit value. -/
def from_string (t : String) : List Nat := t.data.map (fun c => c.toNat - 48)

/-- The start state of the recorded notebook run (cells 3, 4 and 7). -/
def recorded_start : List Nat := [0, 5, 6, 3, 8, 2, 7, 4, 1]

/-- The fixed-width serialization of the start state recorded by notebook
cell 4 (`puzzle.to_string(puzzle.get_start())` printed `'056382741'`). -/
def recorded_start_string : String := "056382741"

/-- The 31 path entries of the tuple returned by
`solver.solve(algorithm='a_star', max_iteration=50000)`, exactly as recorded
in notebook cell 7. -/
def recorded_path : List String :=
  ["[0, 5, 6, 3, 8, 2, 7, 4, 1]",
   "[3, 5, 6, 0, 8, 2, 7, 4, 1]",
   "[3, 5, 6, 7, 8, 2, 0, 4, 1]",
   "[3, 5, 6, 7, 8, 2, 4, 0, 1]",
   "[3, 5, 6, 7, 8, 2, 4, 1, 0]",
   "[3, 5, 6, 7, 8, 0, 4, 1, 2]",
   "[3, 5, 6, 7, 0, 8, 4, 1, 2]",
   "[3, 5, 6, 7, 1, 8, 4, 0, 2]",
   "[3, 5, 6, 7, 1, 8, 4, 2, 0]",
   "[3, 5, 6, 7, 1, 0, 4, 2, 8]",
   "[3, 5, 6, 7, 0, 1, 4, 2, 8]",
   "[3, 5, 6, 7, 2, 1, 4, 0, 8]",
   "[3, 5, 6, 7, 2, 1, 0, 4, 8]",
   "[3, 5, 6, 0, 2, 1, 7, 4, 8]",
   "[3, 5, 6, 2, 0, 1, 7, 4, 8]",
   "[3, 5, 6, 2, 1, 0, 7, 4, 8]",
   "[3, 5, 0, 2, 1, 6, 7, 4, 8]",
   "[3, 0, 5, 2, 1, 6, 7, 4, 8]",
   "[0, 3, 5, 2, 1, 6, 7, 4, 8]",
   "[2, 3, 5, 0, 1, 6, 7, 4, 8]",
   "[2, 3, 5, 1, 0, 6, 7, 4, 8]",
   "[2, 3, 5, 1, 4, 6, 7, 0, 8]",
   "[2, 3, 5, 1, 4, 6, 7, 8, 0]",
   "[2, 3, 5, 1, 4, 0, 7, 8, 6]",
   "[2, 3, 0, 1, 4, 5, 7, 8, 6]",
   "[2, 0, 3, 1, 4, 5, 7, 8, 6]",
   "[0, 2, 3, 1, 4, 5, 7, 8, 6]",
   "[1, 2, 3, 0, 4, 5, 7, 8, 6]",
   "[1, 2, 3, 4, 0, 5, 7, 8, 6]",
   "[1, 2, 3, 4, 5, 0, 7, 8, 6]",
   "[1, 2, 3, 4, 5, 6, 7, 8, 0]"]

/-- The 31 board states denoted by the path entries of the recorded run, in
order (each entry of `recorded_path` lists the tiles of one state). -/
def recorded_path_states : List (List Nat) :=
  [[0, 5, 6, 3, 8, 2, 7, 4, 1],
   [3, 5, 6, 0, 8, 2, 7, 4, 1],
   [3, 5, 6, 7, 8, 2, 0, 4, 1],
   [3, 5, 6, 7, 8, 2, 4, 0, 1],
   [3, 5, 6, 7, 8, 2, 4, 1, 0],
   [3, 5, 6, 7, 8, 0, 4, 1, 2],
   [3, 5, 6, 7, 0, 8, 4, 1, 2],
   [3, 5, 6, 7, 1, 8, 4, 0, 2],
   [3, 5, 6, 7, 1, 8, 4, 2, 0],
   [3, 5, 6, 7, 1, 0, 4, 2, 8],
   [3, 5, 6, 7, 0, 1, 4, 2, 8],
   [3, 5, 6, 7, 2, 1, 4, 0, 8],
   [3, 5, 6, 7, 2, 1, 0, 4, 8],
   [3, 5, 6, 0, 2, 1, 7, 4, 8],
   [3, 5, 6, 2, 0, 1, 7, 4, 8],
   [3, 5, 6, 2, 1, 0, 7, 4, 8],
   [3, 5, 0, 2, 1, 6, 7, 4, 8],
   [3, 0, 5, 2, 1, 6, 7, 4, 8],
   [0, 3, 5, 2, 1, 6, 7, 4, 8],
   [2, 3, 5, 0, 1, 6, 7, 4, 8],
   [2, 3, 5, 1, 0, 6, 7, 4, 8],
   [2, 3, 5, 1, 4, 6, 7, 0, 8],
   [2, 3, 5, 1, 4, 6, 7, 8, 0],
   [2, 3, 5, 1, 4, 0, 7, 8, 6],
   [2, 3, 0, 1, 4, 5, 7, 8, 6],
   [2, 0, 3, 1, 4, 5, 7, 8, 6],
   [0, 2, 3, 1, 4, 5, 7, 8, 6],
   [1, 2, 3, 0, 4, 5, 7, 8, 6],
   [1, 2, 3, 4, 0, 5, 7, 8, 6],
   [1, 2, 3, 4, 5, 0, 7, 8, 6],
   [1, 2, 3, 4, 5, 6, 7, 8, 0]]

/-- The length field (second component) of the tuple recorded in notebook
cell 7: the solver reported a path length of 26. -/
def recorded_length : Nat := 26

/-- The expansion count (third component) of the tuple recorded in notebook
cell 7. -/
def recorded_expansions : Nat := 5473

/-- The `max_iteration` argument of the recorded `solve` call (cell 6). -/
def recorded_cap : Nat := 50000

/-- The bracketed decimal rendering actually used by the recorded path
entries: `"["`, the tile values separated by `", "`, then `"]"` (the textual
form of a list of integers, as in `'[0, 5, 6, 3, 8, 2, 7, 4, 1]'`). -/
def list_repr (s : List Nat) : String :=
  "[" ++ String.intercalate ", " (s.map Nat.repr) ++ "]"

/-- Modelled from the spec: a move exchanges the blank with one neighboring
tile, producing a new state; `swap_tiles s i j` exchanges the contents of
cells `i` and `j`. -/
def swap_tiles (s : List Nat) (i j : Nat) : List Nat :=
  (s.set i (s.getD j 0)).set j (s.getD i 0)

/-- The cell currently holding the blank (label 0). -/
def blank_index (s : List Nat) : Nat := List.indexOf 0 s

/-- Modelled from the spec: `legal_moves` lives in the `SlidingTiles` class,
which is not in the sources.  The blank (at cell `b`, row `b / N`, column
`b % N`) exchanges position with each of its up/down/left/right neighbors
that lie on the board, in that fixed order. -/
def moves_from (N b : Nat) (s : List Nat) : List (List Nat) :=
  (if 0 < b / N then [swap_tiles s b (b - N)] else []) ++
  (if b / N < N - 1 then [swap_tiles s b (b + N)] else []) ++
  (if 0 < b % N then [swap_tiles s b (b - 1)] else []) ++
  (if b % N < N - 1 then [swap_tiles s b (b + 1)] else [])

/-- The one-move successors of `s`: the blank swaps with each in-board
neighbor of its cell. -/
def legal_moves (N : Nat) (s : List Nat) : List (List Nat) :=
  moves_from N (blank_index s) s

/-- A sequence of states is a valid path when every consecutive pair is
connected by one legal move. -/
def valid_path (N : Nat) : List (List Nat) → Bool
  | [] => true
  | [_] => true
  | s :: t :: rest => decide (t ∈ legal_moves N s) && valid_path N (t :: rest)

/-- A 26-move legal path from the recorded start state to the goal, found by
exhaustive breadth-first search over the 3×3 state space; it bounds the true
optimal move count of the recorded instance by 26. -/
def shorter_valid_path : List (List Nat) :=
  [[0, 5, 6, 3, 8, 2, 7, 4, 1],
   [3, 5, 6, 0, 8, 2, 7, 4, 1],
   [3, 5, 6, 7, 8, 2, 0, 4, 1],
   [3, 5, 6, 7, 8, 2, 4, 0, 1],
   [3, 5, 6, 7, 0, 2, 4, 8, 1],
   [3, 5, 6, 7, 2, 0, 4, 8, 1],
   [3, 5, 6, 7, 2, 1, 4, 8, 0],
   [3, 5, 6, 7, 2, 1, 4, 0, 8],
   [3, 5, 6, 7, 2, 1, 0, 4, 8],
   [3, 5, 6, 0, 2, 1, 7, 4, 8],
   [3, 5, 6, 2, 0, 1, 7, 4, 8],
   [3, 5, 6, 2, 1, 0, 7, 4, 8],
   [3, 5, 0, 2, 1, 6, 7, 4, 8],
   [3, 0, 5, 2, 1, 6, 7, 4, 8],
   [0, 3, 5, 2, 1, 6, 7, 4, 8],
   [2, 3, 5, 0, 1, 6, 7, 4, 8],
   [2, 3, 5, 1, 0, 6, 7, 4, 8],
   [2, 3, 5, 1, 4, 6, 7, 0, 8],
   [2, 3, 5, 1, 4, 6, 7, 8, 0],
   [2, 3, 5, 1, 4, 0, 7, 8, 6],
   [2, 3, 0, 1, 4, 5, 7, 8, 6],
   [2, 0, 3, 1, 4, 5, 7, 8, 6],
   [0, 2, 3, 1, 4, 5, 7, 8, 6],
   [1, 2, 3, 0, 4, 5, 7, 8, 6],
   [1, 2, 3, 4, 0, 5, 7, 8, 6],
   [1, 2, 3, 4, 5, 0, 7, 8, 6],
   [1, 2, 3, 4, 5, 6, 7, 8, 0]]

/-- Number of inversions among the non-blank tiles of `s` in row-major order:
pairs that appear in the opposite of their goal relative order. -/
def inversions : List Nat → Nat
  | [] => 0
  | x :: rest =>
    (if x = 0 then 0 else rest.countP (fun y => decide (0 < y) && decide (y < x))) +
      inversions rest

/-- Row distance of the blank from its goal row: the goal places the blank in
the last row `N - 1`, and the blank of `s` sits in row `blank_index s / N`. -/
def blank_row_dist (N : Nat) (s : List Nat) : Nat :=
  (N - 1) - blank_index s / N

/-- Modelled from the spec: `is_solvable` lives in the `SlidingTiles` class,
which is not in the sources.  Standard parity argument: for odd board width
the state is solvable iff the inversion count is even; for even width iff the
inversion count plus the blank's row distance from its goal row is even. -/
def is_solvable (N : Nat) (s : List Nat) : Bool :=
  if N % 2 = 1 then decide (inversions s % 2 = 0)
  else decide ((inversions s + blank_row_dist N s) % 2 = 0)

/-- The parity criterion exactly as the claim states it: for odd `N`,
solvability is evenness of the inversion count; for even `N`, evenness of the
inversion count plus the blank's row distance from its goal row. -/
def solvability_criterion (N : Nat) (s : List Nat) : Prop :=
  if Odd N then Even (inversions s)
  else Even (inversions s + blank_row_dist N s)

/-- Cells `i` and `j` are orthogonal neighbors on the `N`-wide board: same
row and adjacent columns, or same column and adjacent rows. -/
def adjacent (N i j : Nat) : Prop :=
  (i / N = j / N ∧ (j + 1 = i ∨ i + 1 = j)) ∨
  (i % N = j % N ∧ (j + N = i ∨ i + N = j))

/-- Row of the blank cell. -/
def blank_row (N : Nat) (s : List Nat) : Nat := blank_index s / N

/-- Column of the blank cell. -/
def blank_col (N : Nat) (s : List Nat) : Nat := blank_index s % N

/-- The blank sits in a corner of the board. -/
def corner_pos (N : Nat) (s : List Nat) : Prop :=
  (blank_row N s = 0 ∨ blank_row N s = N - 1) ∧
  (blank_col N s = 0 ∨ blank_col N s = N - 1)

/-- The blank sits on an edge of the board (exactly one coordinate on the
boundary). -/
def edge_pos (N : Nat) (s : List Nat) : Prop :=
  ((blank_row N s = 0 ∨ blank_row N s = N - 1) ∧
    0 < blank_col N s ∧ blank_col N s < N - 1) ∨
  ((blank_col N s = 0 ∨ blank_col N s = N - 1) ∧
    0 < blank_row N s ∧ blank_row N s < N - 1)

/-- The blank sits strictly inside the board. -/
def interior_pos (N : Nat) (s : List Nat) : Prop :=
  0 < blank_row N s ∧ blank_row N s < N - 1 ∧
  0 < blank_col N s ∧ blank_col N s < N - 1

/-- Modelled from the spec: the puzzle instance holds the board size fixed at
construction and the single mutable "current start state".  The notebook
constructs `SlidingTiles(9)` and that puzzle's states have 9 cells, so `size`
is the total cell count `N * N`. -/
structure Puzzle where
  size : Nat
  start : List Nat

/-- The argument of the recorded constructor call `SlidingTiles(9)` in
notebook cell 1. -/
def board_size_argument : Nat := 9

/-- The board width of the recorded puzzle: its states (start, path entries,
goal) all have `3 * 3 = 9` cells. -/
def recorded_board_width : Nat := 3

/-- Modelled from the spec: construction fails with `InvalidConfiguration`
(modelled as `none`) for widths `N < 2`; since the caller passes the cell
count `N * N` as `board_size`, that is `board_size < 4`. -/
def sliding_tiles_init (board_size : Nat) : Option Puzzle :=
  if board_size < 4 then none else some ⟨board_size, []⟩

/-- Modelled from the spec: `set_start` fails with `InvalidState` (modelled
as `none`) when the label multiset is not a valid permutation of
`0 .. size-1`; otherwise it rewrites the current start state. -/
def set_start (p : Puzzle) (s : List Nat) : Option Puzzle :=
  if ValidPerm p.size s then some { p with start := s } else none

/-- Modelled from the spec: accessor for the current start state. -/
def get_start (p : Puzzle) : List Nat := p.start

/-- Modelled from the spec: `generate_random_state` returns a uniformly
sampled permutation of the `size` labels in the native state representation
(the notebook feeds the result straight into `set_start`).  The random draw
is modelled by an explicit list of in-range transpositions applied to the
identity arrangement, supplied by the caller's source of randomness. -/
def generate_random_state (size : Nat) (swaps : List (Fin size × Fin size)) :
    List Nat :=
  swaps.foldl (fun s ij => swap_tiles s ij.1 ij.2) (List.range size)

/-- Grid distance between cells `i` and `g` on an `N`-wide board. -/
def tile_dist (N i g : Nat) : Nat :=
  (max (i / N) (g / N) - min (i / N) (g / N)) +
  (max (i % N) (g % N) - min (i % N) (g % N))

/-- Modelled from the spec: the Manhattan-distance heuristic — the sum over
all non-blank tiles of the grid distance between the tile's cell and its goal
cell (tile `t` belongs at cell `t - 1`). -/
def manhattan_distance (N : Nat) (s : List Nat) : Nat :=
  ((List.range s.length).map (fun i =>
    if s.getD i 0 = 0 then 0 else tile_dist N i (s.getD i 0 - 1))).sum

/-- Modelled from the spec: a search node holds a state, its accumulated path
cost `g`, its heuristic estimate `h`, and — in place of a predecessor
back-reference — the reconstructed path from the start to the state. -/
structure Node where
  state : List Nat
  g : Nat
  h : Nat
  path : List (List Nat)

/-- Priority of a node in the frontier. -/
def Node.f (n : Node) : Nat := n.g + n.h

/-- Modelled from the spec: pop the frontier node with the lowest `f`,
breaking ties deterministically in favor of the earliest-inserted node. -/
def popMin : List Node → Option (Node × List Node)
  | [] => none
  | n :: rest =>
    match popMin rest with
    | none => some (n, [])
    | some (m, rest') =>
      if n.f ≤ m.f then some (n, rest) else some (m, n :: rest')

/-- Best-known-cost map from states to the lowest `g` seen (latest entry
shadows older ones). -/
def lookup_g : List (List Nat × Nat) → List Nat → Option Nat
  | [], _ => none
  | (s, g) :: rest, t => if s = t then some g else lookup_g rest t

/-- Modelled from the spec: relax one successor `t` of node `n` — when the
tentative cost `n.g + 1` improves on the best known cost of `t` (or `t` is
unseen), record the cost and push a successor node onto the frontier. -/
def relax (heur : List Nat → Nat) (n : Node)
    (acc : List Node × List (List Nat × Nat)) (t : List Nat) :
    List Node × List (List Nat × Nat) :=
  match lookup_g acc.2 t with
  | some g' =>
    if n.g + 1 < g' then
      (acc.1 ++ [⟨t, n.g + 1, heur t, n.path ++ [t]⟩], (t, n.g + 1) :: acc.2)
    else acc
  | none =>
    (acc.1 ++ [⟨t, n.g + 1, heur t, n.path ++ [t]⟩], (t, n.g + 1) :: acc.2)

/-- Modelled from the spec: the bounded A* loop.  Pop the lowest-f node; if
it is the goal, return the serialized path, its move count and the expansion
count; if the expansion counter has already reached `max_iteration`, stop as
exhausted with the documented sentinel (empty path, expansions = the cap);
otherwise count the expansion and relax the node's legal successors.  `fuel`
makes the recursion structural; the driver supplies `cap + 1` fuel, which the
counter check keeps from running out. -/
def solve_loop (N : Nat) (heur : List Nat → Nat) (goalS : List Nat)
    (cap : Nat) :
    Nat → List Node → List (List Nat × Nat) → Nat → List String × Nat × Nat
  | 0, _, _, e => ([], 0, e)
  | fuel + 1, frontier, best, e =>
    match popMin frontier with
    | none => ([], 0, e)
    | some (n, rest) =>
      if n.state = goalS then (n.path.map to_string, n.path.length - 1, e)
      else if cap ≤ e then ([], 0, cap)
      else
        solve_loop N heur goalS cap fuel
          ((legal_moves N n.state).foldl (relax heur n) (rest, best)).1
          ((legal_moves N n.state).foldl (relax heur n) (rest, best)).2
          (e + 1)

/-- Modelled from the spec: `solve` fails with `InvalidStart` when the
configured start state is unsolvable (checked once up front); otherwise it
runs the A* loop from the start node (g = 0, h = heuristic of the start). -/
def solve (N : Nat) (heur : List Nat → Nat) (start : List Nat)
    (max_iteration : Nat) : Except String (List String × Nat × Nat) :=
  if is_solvable N start = true then
    Except.ok (solve_loop N heur (goal_state N) max_iteration
      (max_iteration + 1) [⟨start, 0, heur start, [start]⟩] [(start, 0)] 0)
  else Except.error "InvalidStart"

lemma digitChar_decode (d : Nat) (h : d < 10) : (Nat.digitChar d).toNat - 48 = d := by
  interval_cases d <;> rfl

lemma from_to_of_lt (s : List Nat) (h : ∀ x ∈ s, x < 10) :
    from_string (to_string s) = s := by
  induction s with
  | nil => rfl
  | cons a t ih =>
    have ha : a < 10 := h a (List.mem_cons_self a t)
    have ht : ∀ x ∈ t, x < 10 := fun x hx => h x (List.mem_cons_of_mem a hx)
    have : from_string (to_string (a :: t)) =
        ((Nat.digitChar a).toNat - 48) :: from_string (to_string t) := rfl
    rw [this, digitChar_decode a ha, ih ht]

lemma goal_string_solvable : is_solvable 3 (from_string "123456780") = true := by
  decide

lemma swapped_goal_string_unsolvable :
    is_solvable 3 (from_string "213456780") = false := by
  decide

lemma length_swap_tiles (s : List Nat) (i j : Nat) :
    (swap_tiles s i j).length = s.length := by
  simp [swap_tiles]

lemma ext_getD (s t : List Nat) (hlen : s.length = t.length)
    (h : ∀ k, k < s.length → s.getD k 0 = t.getD k 0) : s = t := by
  refine List.ext_getElem hlen (fun k h1 h2 => ?_)
  have hk := h k h1
  rwa [List.getD_eq_getElem s 0 h1, List.getD_eq_getElem t 0 h2] at hk

lemma getD_set_self (s : List Nat) (i : Nat) (a : Nat) (hi : i < s.length) :
    (s.set i a).getD i 0 = a := by
  rw [List.getD_eq_getElem (s.set i a) 0 (by simpa using hi), List.getElem_set,
    if_pos rfl]

lemma getD_set_other (s : List Nat) (i k : Nat) (a : Nat) (h : i ≠ k) :
    (s.set i a).getD k 0 = s.getD k 0 := by
  by_cases hk : k < s.length
  · rw [List.getD_eq_getElem (s.set i a) 0 (by simpa using hk),
      List.getD_eq_getElem s 0 hk, List.getElem_set, if_neg h]
  · rw [List.getD_eq_default _ _ (by simpa using Nat.le_of_not_lt hk),
      List.getD_eq_default _ _ (Nat.le_of_not_lt hk)]

lemma getD_swap_snd (s : List Nat) (i j : Nat) (hj : j < s.length) :
    (swap_tiles s i j).getD j 0 = s.getD i 0 := by
  unfold swap_tiles
  rw [getD_set_self _ j _ (by simpa using hj)]

lemma getD_swap_fst (s : List Nat) (i j : Nat) (hij : j ≠ i) (hi : i < s.length) :
    (swap_tiles s i j).getD i 0 = s.getD j 0 := by
  unfold swap_tiles
  rw [getD_set_other _ j i _ hij, getD_set_self s i _ hi]

lemma getD_swap_other (s : List Nat) (i j k : Nat) (hik : i ≠ k) (hjk : j ≠ k) :
    (swap_tiles s i j).getD k 0 = s.getD k 0 := by
  unfold swap_tiles
  rw [getD_set_other _ j k _ hjk, getD_set_other s i k _ hik]

lemma set_getD_self (s : List Nat) (i : Nat) (hi : i < s.length) :
    s.set i (s.getD i 0) = s := by
  refine List.ext_getElem (by simp) (fun k h1 h2 => ?_)
  rw [List.getElem_set]
  by_cases h : i = k
  · subst h
    rw [if_pos rfl, List.getD_eq_getElem s 0 hi]
  · rw [if_neg h]

lemma swap_tiles_self (s : List Nat) (i : Nat) (hi : i < s.length) :
    swap_tiles s i i = s := by
  unfold swap_tiles
  rw [List.set_set, set_getD_self s i hi]

lemma swap_tiles_swap_tiles (s : List Nat) (i j : Nat) (hi : i < s.length)
    (hj : j < s.length) :
    swap_tiles (swap_tiles s i j) j i = s := by
  by_cases hij : i = j
  · subst hij
    rw [swap_tiles_self s i hi, swap_tiles_self s i hi]
  · have hls : (swap_tiles s i j).length = s.length := length_swap_tiles s i j
    refine ext_getD _ _ (by simp [length_swap_tiles]) (fun k hk0 => ?_)
    by_cases hki : k = i
    · rw [hki, getD_swap_snd (swap_tiles s i j) j i (by rw [hls]; exact hi),
        getD_swap_snd s i j hj]
    · by_cases hkj : k = j
      · rw [hkj, getD_swap_fst (swap_tiles s i j) j i
          hij (by rw [hls]; exact hj),
          getD_swap_fst s i j (fun h => hij h.symm) hi]
      · rw [getD_swap_other (swap_tiles s i j) j i k
          (fun h => hkj h.symm) (fun h => hki h.symm),
          getD_swap_other s i j k (fun h => hki h.symm) (fun h => hkj h.symm)]

lemma valid_length {n : Nat} {s : List Nat} (hs : ValidPerm n s) : s.length = n := by
  simpa using hs.length_eq

lemma valid_nodup {n : Nat} {s : List Nat} (hs : ValidPerm n s) : s.Nodup :=
  List.Perm.nodup hs.symm (List.nodup_range n)

lemma zero_mem_valid {n : Nat} {s : List Nat} (hs : ValidPerm n s) (hn : 0 < n) :
    0 ∈ s :=
  hs.mem_iff.mpr (List.mem_range.mpr hn)

lemma blank_index_lt {n : Nat} {s : List Nat} (hs : ValidPerm n s) (hn : 0 < n) :
    blank_index s < s.length :=
  List.indexOf_lt_length.mpr (zero_mem_valid hs hn)

lemma getElem_blank_index {n : Nat} {s : List Nat} (hs : ValidPerm n s) (hn : 0 < n)
    (h : blank_index s < s.length) : s[blank_index s] = 0 :=
  List.getElem_indexOf h

lemma eq_blank_index_of_zero {n : Nat} {s : List Nat} (hs : ValidPerm n s)
    (hn : 0 < n) {k : Nat} (hk : k < s.length) (h0 : s[k] = 0) :
    k = blank_index s := by
  have hb := blank_index_lt hs hn
  have hb0 := getElem_blank_index hs hn hb
  exact (List.Nodup.getElem_inj_iff (valid_nodup hs)).mp (h0.trans hb0.symm)

lemma getD_blank_index {n : Nat} {s : List Nat} (hs : ValidPerm n s) (hn : 0 < n) :
    s.getD (blank_index s) 0 = 0 := by
  have hb := blank_index_lt hs hn
  rw [List.getD_eq_getElem s 0 hb]
  exact List.getElem_indexOf hb

lemma eq_blank_of_getD {n : Nat} {s : List Nat} (hs : ValidPerm n s) (hn : 0 < n)
    {k : Nat} (hk : k < s.length) (h0 : s.getD k 0 = 0) : k = blank_index s :=
  eq_blank_index_of_zero hs hn hk
    (by rw [← List.getD_eq_getElem s 0 hk]; exact h0)

lemma indexOf_zero_of_unique (s : List Nat) (b : Nat) (hb : b < s.length)
    (h0 : s.getD b 0 = 0) (hu : ∀ k, k < s.length → s.getD k 0 = 0 → k = b) :
    List.indexOf 0 s = b := by
  induction s generalizing b with
  | nil => exact absurd hb (by simp)
  | cons a t ih =>
    by_cases ha : a = 0
    · rw [ha, List.indexOf_cons_self]
      exact hu 0 (by simp) (by simp [ha])
    · rw [List.indexOf_cons_ne t ha]
      have hb0 : b ≠ 0 := by
        intro h
        exact ha (by simpa [h] using h0)
      obtain ⟨b', rfl⟩ := Nat.exists_eq_succ_of_ne_zero hb0
      have hb' : b' < t.length := by simpa using hb
      have h0' : t.getD b' 0 = 0 := by simpa using h0
      have hu' : ∀ k, k < t.length → t.getD k 0 = 0 → k = b' := by
        intro k hk hk0
        have := hu (k + 1) (by simpa using hk) (by simpa using hk0)
        omega
      rw [ih b' hb' h0' hu']

lemma blank_index_swap {n : Nat} {s : List Nat} (hs : ValidPerm n s) (hn : 0 < n)
    {j : Nat} (hj : j < s.length) (hjb : j ≠ blank_index s) :
    blank_index (swap_tiles s (blank_index s) j) = j := by
  have hb : blank_index s < s.length := blank_index_lt hs hn
  have hlen : (swap_tiles s (blank_index s) j).length = s.length :=
    length_swap_tiles s (blank_index s) j
  show List.indexOf 0 (swap_tiles s (blank_index s) j) = j
  apply indexOf_zero_of_unique
  · rw [hlen]; exact hj
  · rw [getD_swap_snd s (blank_index s) j hj]
    exact getD_blank_index hs hn
  · intro k hk hk0
    rw [hlen] at hk
    by_cases hkj : k = j
    · exact hkj
    · exfalso
      by_cases hkb : k = blank_index s
      · rw [hkb, getD_swap_fst s (blank_index s) j hjb hb] at hk0
        exact hjb (eq_blank_of_getD hs hn hj hk0)
      · rw [getD_swap_other s (blank_index s) j k (fun h => hkb h.symm)
          (fun h => hkj h.symm)] at hk0
        exact hkb (eq_blank_of_getD hs hn hk hk0)

lemma cell_div (N q r : Nat) (hN : 0 < N) (hr : r < N) : (N * q + r) / N = q := by
  rw [Nat.mul_add_div hN, Nat.div_eq_of_lt hr, Nat.add_zero]

lemma cell_mod (N q r : Nat) (hr : r < N) : (N * q + r) % N = r := by
  rw [Nat.mul_add_mod, Nat.mod_eq_of_lt hr]

lemma div_lt_of_lt_sq {N b : Nat} (hN : 0 < N) (hb : b < N * N) : b / N < N :=
  (Nat.div_lt_iff_lt_mul hN).mpr hb

lemma up_facts (N b : Nat) (hN : 0 < N) (h : 0 < b / N) :
    N ≤ b ∧ (b - N) + N = b ∧ (b - N) / N + 1 = b / N ∧ (b - N) % N = b % N := by
  have hrlt : b % N < N := Nat.mod_lt b hN
  obtain ⟨q', hq⟩ : ∃ q', b / N = q' + 1 :=
    ⟨b / N - 1, (Nat.succ_pred_eq_of_pos h).symm⟩
  have hb1 : b = N * (q' + 1) + b % N := by
    rw [← hq]
    exact (Nat.div_add_mod b N).symm
  have hb2 : b = (N * q' + b % N) + N := by
    conv_lhs => rw [hb1]
    ring
  have hsub : b - N = N * q' + b % N := by
    conv_lhs => rw [hb2]
    exact Nat.add_sub_cancel _ _
  refine ⟨?_, ?_, ?_, ?_⟩
  · rw [hb2]; exact Nat.le_add_left N _
  · rw [hsub]; exact hb2.symm
  · rw [hsub, cell_div N q' (b % N) hN hrlt, hq]
  · rw [hsub, cell_mod N q' (b % N) hrlt]

lemma down_facts (N b : Nat) (hN : 0 < N) (hb : b < N * N) (h : b / N < N - 1) :
    b + N < N * N ∧ (b + N) / N = b / N + 1 ∧ (b + N) % N = b % N := by
  have hqr : b = N * (b / N) + b % N := (Nat.div_add_mod b N).symm
  have hrlt : b % N < N := Nat.mod_lt b hN
  have hbN : b + N = N * (b / N + 1) + b % N := by
    conv_lhs => rw [hqr]
    ring
  have h2 : b / N + 2 ≤ N := by
    have h1 : b / N + 1 ≤ N - 1 := h
    have h3 := Nat.add_le_add_right h1 1
    rwa [Nat.sub_add_cancel hN] at h3
  have hbound : b + N < N * N := by
    rw [hbN]
    calc N * (b / N + 1) + b % N < N * (b / N + 1) + N := Nat.add_lt_add_left hrlt _
      _ = N * (b / N + 2) := by ring
      _ ≤ N * N := Nat.mul_le_mul (Nat.le_refl N) h2
  refine ⟨hbound, ?_, ?_⟩
  · rw [hbN, cell_div N (b / N + 1) (b % N) hN hrlt]
  · rw [hbN, cell_mod N (b / N + 1) (b % N) hrlt]

lemma left_facts (N b : Nat) (hN : 0 < N) (h : 0 < b % N) :
    0 < b ∧ (b - 1) + 1 = b ∧ (b - 1) / N = b / N ∧ (b - 1) % N + 1 = b % N := by
  have hrlt : b % N < N := Nat.mod_lt b hN
  obtain ⟨r', hr⟩ : ∃ r', b % N = r' + 1 :=
    ⟨b % N - 1, (Nat.succ_pred_eq_of_pos h).symm⟩
  have hr'lt : r' < N := by
    rw [hr] at hrlt
    exact Nat.lt_of_succ_lt hrlt
  have hb1 : b = (N * (b / N) + r') + 1 := by
    conv_lhs => rw [(Nat.div_add_mod b N).symm]
    rw [hr]
    ring
  have hsub : b - 1 = N * (b / N) + r' := by
    conv_lhs => rw [hb1]
    exact Nat.add_sub_cancel _ _
  refine ⟨?_, ?_, ?_, ?_⟩
  · rw [hb1]; exact Nat.succ_pos _
  · rw [hsub]; exact hb1.symm
  · rw [hsub, cell_div N (b / N) r' hN hr'lt]
  · rw [hsub, cell_mod N (b / N) r' hr'lt]
    exact hr.symm

lemma right_facts (N b : Nat) (hN : 0 < N) (hb : b < N * N) (h : b % N < N - 1) :
    b + 1 < N * N ∧ (b + 1) / N = b / N ∧ (b + 1) % N = b % N + 1 := by
  have hqr : b = N * (b / N) + b % N := (Nat.div_add_mod b N).symm
  have hr1 : b % N + 1 < N := by
    have h1 : b % N + 1 ≤ N - 1 := h
    have h2 := Nat.add_le_add_right h1 1
    rw [Nat.sub_add_cancel hN] at h2
    exact h2
  have hb1 : b + 1 = N * (b / N) + (b % N + 1) := by
    conv_lhs => rw [hqr]
    ring
  have hq : b / N < N := div_lt_of_lt_sq hN hb
  have hbound : b + 1 < N * N := by
    rw [hb1]
    calc N * (b / N) + (b % N + 1) < N * (b / N) + N := Nat.add_lt_add_left hr1 _
      _ = N * (b / N + 1) := by ring
      _ ≤ N * N := Nat.mul_le_mul (Nat.le_refl N) (Nat.succ_le_of_lt hq)
  refine ⟨hbound, ?_, ?_⟩
  · rw [hb1, cell_div N (b / N) (b % N + 1) hN hr1]
  · rw [hb1, cell_mod N (b / N) (b % N + 1) hr1]

lemma length_moves_from (N b : Nat) (s : List Nat) :
    (moves_from N b s).length =
      (((if 0 < b / N then 1 else 0) + (if b / N < N - 1 then 1 else 0)) +
        (if 0 < b % N then 1 else 0)) + (if b % N < N - 1 then 1 else 0) := by
  unfold moves_from
  split_ifs <;> simp

lemma mem_legal_moves_up (N : Nat) (t : List Nat) (h : 0 < blank_index t / N) :
    swap_tiles t (blank_index t) (blank_index t - N) ∈ legal_moves N t := by
  unfold legal_moves moves_from
  exact List.mem_append_left _ (List.mem_append_left _ (List.mem_append_left _
    (by rw [if_pos h]; exact List.mem_singleton.mpr rfl)))

lemma mem_legal_moves_down (N : Nat) (t : List Nat) (h : blank_index t / N < N - 1) :
    swap_tiles t (blank_index t) (blank_index t + N) ∈ legal_moves N t := by
  unfold legal_moves moves_from
  exact List.mem_append_left _ (List.mem_append_left _ (List.mem_append_right _
    (by rw [if_pos h]; exact List.mem_singleton.mpr rfl)))

lemma mem_legal_moves_left (N : Nat) (t : List Nat) (h : 0 < blank_index t % N) :
    swap_tiles t (blank_index t) (blank_index t - 1) ∈ legal_moves N t := by
  unfold legal_moves moves_from
  exact List.mem_append_left _ (List.mem_append_right _
    (by rw [if_pos h]; exact List.mem_singleton.mpr rfl))

lemma mem_legal_moves_right (N : Nat) (t : List Nat) (h : blank_index t % N < N - 1) :
    swap_tiles t (blank_index t) (blank_index t + 1) ∈ legal_moves N t := by
  unfold legal_moves moves_from
  exact List.mem_append_right _
    (by rw [if_pos h]; exact List.mem_singleton.mpr rfl)

lemma mem_legal_moves_cases (N : Nat) (s t : List Nat) (ht : t ∈ legal_moves N s) :
    (0 < blank_index s / N ∧ t = swap_tiles s (blank_index s) (blank_index s - N)) ∨
    (blank_index s / N < N - 1 ∧ t = swap_tiles s (blank_index s) (blank_index s + N)) ∨
    (0 < blank_index s % N ∧ t = swap_tiles s (blank_index s) (blank_index s - 1)) ∨
    (blank_index s % N < N - 1 ∧ t = swap_tiles s (blank_index s) (blank_index s + 1)) := by
  unfold legal_moves moves_from at ht
  rcases List.mem_append.mp ht with h3 | h4
  · rcases List.mem_append.mp h3 with h2 | hc
    · rcases List.mem_append.mp h2 with ha | hb
      · by_cases hcond : 0 < blank_index s / N
        · rw [if_pos hcond] at ha
          exact Or.inl ⟨hcond, List.mem_singleton.mp ha⟩
        · rw [if_neg hcond] at ha
          exact absurd ha (List.not_mem_nil t)
      · by_cases hcond : blank_index s / N < N - 1
        · rw [if_pos hcond] at hb
          exact Or.inr (Or.inl ⟨hcond, List.mem_singleton.mp hb⟩)
        · rw [if_neg hcond] at hb
          exact absurd hb (List.not_mem_nil t)
    · by_cases hcond : 0 < blank_index s % N
      · rw [if_pos hcond] at hc
        exact Or.inr (Or.inr (Or.inl ⟨hcond, List.mem_singleton.mp hc⟩))
      · rw [if_neg hcond] at hc
        exact absurd hc (List.not_mem_nil t)
  · by_cases hcond : blank_index s % N < N - 1
    · rw [if_pos hcond] at h4
      exact Or.inr (Or.inr (Or.inr ⟨hcond, List.mem_singleton.mp h4⟩))
    · rw [if_neg hcond] at h4
      exact absurd h4 (List.not_mem_nil t)

lemma successor_props {N : Nat} {s : List Nat} (hs : ValidPerm (N * N) s)
    (hNN : 0 < N * N) {j : Nat} (hj : j < N * N) (hjb : j ≠ blank_index s) :
    blank_index (swap_tiles s (blank_index s) j) = j ∧
    swap_tiles (swap_tiles s (blank_index s) j) j (blank_index s) = s := by
  have hlen : s.length = N * N := valid_length hs
  have hjs : j < s.length := by rw [hlen]; exact hj
  have hb : blank_index s < s.length := blank_index_lt hs hNN
  exact ⟨blank_index_swap hs hNN hjs hjb,
    swap_tiles_swap_tiles s (blank_index s) j hb hjs⟩

lemma swap_ne {N : Nat} {s : List Nat} (hs : ValidPerm (N * N) s) (hNN : 0 < N * N)
    {j : Nat} (hj : j < s.length) (hjb : j ≠ blank_index s) :
    swap_tiles s (blank_index s) j ≠ s := by
  intro he
  have hb : blank_index s < s.length := blank_index_lt hs hNN
  have h1 : (swap_tiles s (blank_index s) j).getD (blank_index s) 0 = s.getD j 0 :=
    getD_swap_fst s (blank_index s) j hjb hb
  rw [he] at h1
  have h2 : s.getD j 0 = 0 := by
    rw [← h1]
    exact getD_blank_index hs hNN
  exact hjb (eq_blank_of_getD hs hNN hj h2)

lemma legal_moves_successor (N : Nat) (s : List Nat) (hN : 2 ≤ N)
    (hs : ValidPerm (N * N) s) :
    ∀ t ∈ legal_moves N s, ∃ j, j < N * N ∧ j ≠ blank_index s ∧
      adjacent N (blank_index s) j ∧ t = swap_tiles s (blank_index s) j ∧
      t ≠ s ∧ blank_index t = j ∧ swap_tiles t j (blank_index s) = s ∧
      s ∈ legal_moves N t := by
  intro t ht
  have hN0 : 0 < N := by omega
  have hNN : 0 < N * N := Nat.mul_pos hN0 hN0
  have hlen : s.length = N * N := valid_length hs
  have hb : blank_index s < s.length := blank_index_lt hs hNN
  have hbNN : blank_index s < N * N := by rw [← hlen]; exact hb
  rcases mem_legal_moves_cases N s t ht with ⟨hc, rfl⟩ | ⟨hc, rfl⟩ | ⟨hc, rfl⟩ | ⟨hc, rfl⟩
  · obtain ⟨hNb, hadd, hdiv, hmod⟩ := up_facts N (blank_index s) hN0 hc
    have hjNN : blank_index s - N < N * N :=
      Nat.lt_of_le_of_lt (Nat.sub_le _ _) hbNN
    have hjb : blank_index s - N ≠ blank_index s := by
      intro he
      rw [he] at hadd
      omega
    obtain ⟨hblank, hswap⟩ := successor_props hs hNN hjNN hjb
    have hjs : blank_index s - N < s.length := by rw [hlen]; exact hjNN
    refine ⟨blank_index s - N, hjNN, hjb, ?_, rfl, swap_ne hs hNN hjs hjb,
      hblank, hswap, ?_⟩
    · unfold adjacent
      exact Or.inr ⟨hmod.symm, Or.inl hadd⟩
    · have hguard :
          blank_index (swap_tiles s (blank_index s) (blank_index s - N)) / N < N - 1 := by
        rw [hblank]
        have hq : blank_index s / N < N := div_lt_of_lt_sq hN0 hbNN
        revert hdiv hq
        generalize (blank_index s - N) / N = qj
        generalize blank_index s / N = qb
        intro hdiv hq
        omega
      have hmem := mem_legal_moves_down N _ hguard
      rw [hblank, hadd, hswap] at hmem
      exact hmem
  · obtain ⟨hbound, hdiv, hmod⟩ := down_facts N (blank_index s) hN0 hbNN hc
    have hjb : blank_index s + N ≠ blank_index s := by omega
    obtain ⟨hblank, hswap⟩ := successor_props hs hNN hbound hjb
    have hjs : blank_index s + N < s.length := by rw [hlen]; exact hbound
    refine ⟨blank_index s + N, hbound, hjb, ?_, rfl, swap_ne hs hNN hjs hjb,
      hblank, hswap, ?_⟩
    · unfold adjacent
      exact Or.inr ⟨hmod.symm, Or.inr rfl⟩
    · have hguard :
          0 < blank_index (swap_tiles s (blank_index s) (blank_index s + N)) / N := by
        rw [hblank, hdiv]
        exact Nat.succ_pos _
      have hmem := mem_legal_moves_up N _ hguard
      rw [hblank] at hmem
      have hsub : blank_index s + N - N = blank_index s := Nat.add_sub_cancel _ _
      rw [hsub, hswap] at hmem
      exact hmem
  · obtain ⟨hb0, hadd, hdiv, hmod⟩ := left_facts N (blank_index s) hN0 hc
    have hjNN : blank_index s - 1 < N * N :=
      Nat.lt_of_le_of_lt (Nat.sub_le _ _) hbNN
    have hjb : blank_index s - 1 ≠ blank_index s := by omega
    obtain ⟨hblank, hswap⟩ := successor_props hs hNN hjNN hjb
    have hjs : blank_index s - 1 < s.length := by rw [hlen]; exact hjNN
    refine ⟨blank_index s - 1, hjNN, hjb, ?_, rfl, swap_ne hs hNN hjs hjb,
      hblank, hswap, ?_⟩
    · unfold adjacent
      exact Or.inl ⟨hdiv.symm, Or.inl hadd⟩
    · have hguard :
          blank_index (swap_tiles s (blank_index s) (blank_index s - 1)) % N < N - 1 := by
        rw [hblank]
        have hrb : blank_index s % N < N := Nat.mod_lt _ hN0
        revert hmod hrb
        generalize (blank_index s - 1) % N = rj
        generalize blank_index s % N = rb
        intro hmod hrb
        omega
      have hmem := mem_legal_moves_right N _ hguard
      rw [hblank, hadd, hswap] at hmem
      exact hmem
  · obtain ⟨hbound, hdiv, hmod⟩ := right_facts N (blank_index s) hN0 hbNN hc
    have hjb : blank_index s + 1 ≠ blank_index s := by omega
    obtain ⟨hblank, hswap⟩ := successor_props hs hNN hbound hjb
    have hjs : blank_index s + 1 < s.length := by rw [hlen]; exact hbound
    refine ⟨blank_index s + 1, hbound, hjb, ?_, rfl, swap_ne hs hNN hjs hjb,
      hblank, hswap, ?_⟩
    · unfold adjacent
      exact Or.inl ⟨hdiv.symm, Or.inr rfl⟩
    · have hguard :
          0 < blank_index (swap_tiles s (blank_index s) (blank_index s + 1)) % N := by
        rw [hblank, hmod]
        exact Nat.succ_pos _
      have hmem := mem_legal_moves_left N _ hguard
      rw [hblank] at hmem
      have hsub : blank_index s + 1 - 1 = blank_index s := Nat.add_sub_cancel _ _
      rw [hsub, hswap] at hmem
      exact hmem

lemma legal_moves_length_classify (N : Nat) (s : List Nat) (hN : 2 ≤ N)
    (hs : ValidPerm (N * N) s) :
    (2 ≤ (legal_moves N s).length ∧ (legal_moves N s).length ≤ 4) ∧
    (corner_pos N s → (legal_moves N s).length = 2) ∧
    (edge_pos N s → (legal_moves N s).length = 3) ∧
    (interior_pos N s → (legal_moves N s).length = 4) := by
  have hN0 : 0 < N := by omega
  have hNN : 0 < N * N := Nat.mul_pos hN0 hN0
  have hbNN : blank_index s < N * N := by
    rw [← valid_length hs]
    exact blank_index_lt hs hNN
  have hq : blank_index s / N < N := div_lt_of_lt_sq hN0 hbNN
  have hr : blank_index s % N < N := Nat.mod_lt _ hN0
  unfold legal_moves corner_pos edge_pos interior_pos blank_row blank_col
  rw [length_moves_from]
  revert hq hr
  generalize blank_index s / N = q
  generalize blank_index s % N = r
  intro hq hr
  split_ifs <;> omega

lemma swap_tiles_perm (s : List Nat) (i j : Nat) (hi : i < s.length)
    (hj : j < s.length) : (swap_tiles s i j).Perm s := by
  by_cases hij : i = j
  · subst hij
    rw [swap_tiles_self s i hi]
  · rw [List.perm_iff_count]
    intro a
    show List.count a ((s.set i (s.getD j 0)).set j (s.getD i 0)) = List.count a s
    have hj1 : j < (s.set i (s.getD j 0)).length := by simpa using hj
    rw [List.count_set _ _ _ _ hj1, List.count_set _ _ _ _ hi]
    rw [List.getElem_set_ne hij hj1, List.getD_eq_getElem s 0 hi]
    simp only [List.getD_eq_getElem s 0 hj]
    have hAi : (if (s[i] == a) = true then 1 else 0) ≤ List.count a s := by
      split_ifs with h
      · have ha : s[i] = a := by simpa using h
        exact List.count_pos_iff.mpr (ha ▸ List.getElem_mem hi)
      · exact Nat.zero_le _
    omega

lemma generate_random_state_valid (size : Nat)
    (swaps : List (Fin size × Fin size)) :
    ValidPerm size (generate_random_state size swaps) := by
  show (generate_random_state size swaps).Perm (List.range size)
  unfold generate_random_state
  suffices h : ∀ acc : List Nat, acc.Perm (List.range size) →
      (swaps.foldl (fun s ij => swap_tiles s ij.1 ij.2) acc).Perm
        (List.range size) by
    exact h (List.range size) (List.Perm.refl _)
  induction swaps with
  | nil => exact fun acc hacc => hacc
  | cons ij rest ih =>
    intro acc hacc
    have hlen : acc.length = size := by simpa using hacc.length_eq
    exact ih (swap_tiles acc ij.1 ij.2)
      ((swap_tiles_perm acc ij.1 ij.2 (by rw [hlen]; exact ij.1.isLt)
        (by rw [hlen]; exact ij.2.isLt)).trans hacc)

lemma popMin_mem : ∀ {l : List Node} {n : Node} {rest : List Node},
    popMin l = some (n, rest) → n ∈ l := by
  intro l
  induction l with
  | nil =>
    intro n rest h
    simp [popMin] at h
  | cons a t ih =>
    intro n rest h
    unfold popMin at h
    split at h
    · simp only [Option.some.injEq, Prod.mk.injEq] at h
      rw [← h.1]
      exact List.mem_cons_self a t
    · rename_i m rest' hp
      split at h
      · simp only [Option.some.injEq, Prod.mk.injEq] at h
        rw [← h.1]
        exact List.mem_cons_self a t
      · simp only [Option.some.injEq, Prod.mk.injEq] at h
        rw [← h.1]
        exact List.mem_cons_of_mem a (ih hp)

lemma foldl_relax_states (heur : List Nat → Nat) (n : Node) :
    ∀ (succs : List (List Nat)) (acc : List Node × List (List Nat × Nat))
      (m : Node), m ∈ (succs.foldl (relax heur n) acc).1 →
      m ∈ acc.1 ∨ m.state ∈ succs := by
  intro succs
  induction succs with
  | nil => exact fun acc m hm => Or.inl hm
  | cons t rest ih =>
    intro acc m hm
    rcases ih (relax heur n acc t) m hm with h | h
    · unfold relax at h
      split at h
      · split at h
        · rcases List.mem_append.mp h with h1 | h2
          · exact Or.inl h1
          · right
            rw [List.mem_singleton.mp h2]
            exact List.mem_cons_self t rest
        · exact Or.inl h
      · rcases List.mem_append.mp h with h1 | h2
        · exact Or.inl h1
        · right
          rw [List.mem_singleton.mp h2]
          exact List.mem_cons_self t rest
    · exact Or.inr (List.mem_cons_of_mem t h)

lemma solve_loop_pop_none (N : Nat) (heur : List Nat → Nat) (goalS : List Nat)
    (cap fuel : Nat) (frontier : List Node) (best : List (List Nat × Nat))
    (e : Nat) (hpop : popMin frontier = none) :
    solve_loop N heur goalS cap (fuel + 1) frontier best e = ([], 0, e) := by
  unfold solve_loop
  rw [hpop]

lemma solve_loop_pop_capped (N : Nat) (heur : List Nat → Nat) (goalS : List Nat)
    (cap fuel : Nat) (frontier : List Node) (best : List (List Nat × Nat))
    (e : Nat) (n : Node) (rest : List Node)
    (hpop : popMin frontier = some (n, rest)) (hg : n.state ≠ goalS)
    (hcap : cap ≤ e) :
    solve_loop N heur goalS cap (fuel + 1) frontier best e = ([], 0, cap) := by
  unfold solve_loop
  rw [hpop]
  show (if n.state = goalS then _ else if cap ≤ e then ([], 0, cap) else _) = _
  rw [if_neg hg, if_pos hcap]

lemma solve_loop_pop_expand (N : Nat) (heur : List Nat → Nat) (goalS : List Nat)
    (cap fuel : Nat) (frontier : List Node) (best : List (List Nat × Nat))
    (e : Nat) (n : Node) (rest : List Node)
    (hpop : popMin frontier = some (n, rest)) (hg : n.state ≠ goalS)
    (hcap : ¬ cap ≤ e) :
    solve_loop N heur goalS cap (fuel + 1) frontier best e =
      solve_loop N heur goalS cap fuel
        ((legal_moves N n.state).foldl (relax heur n) (rest, best)).1
        ((legal_moves N n.state).foldl (relax heur n) (rest, best)).2
        (e + 1) := by
  conv_lhs => unfold solve_loop
  rw [hpop]
  show (if n.state = goalS then _ else if cap ≤ e then _ else _) = _
  rw [if_neg hg, if_neg hcap]

lemma solve_loop_capped_out (N : Nat) (heur : List Nat → Nat) (goalS : List Nat)
    (f' : List Node) (best : List (List Nat × Nat))
    (hf : ∀ m ∈ f', m.state ≠ goalS) :
    solve_loop N heur goalS 1 1 f' best 1 = ([], 0, 1) := by
  cases hpop : popMin f' with
  | none => exact solve_loop_pop_none N heur goalS 1 0 f' best 1 hpop
  | some nr =>
    obtain ⟨n, rest⟩ := nr
    exact solve_loop_pop_capped N heur goalS 1 0 f' best 1 n rest hpop
      (hf n (popMin_mem hpop)) (Nat.le_refl 1)

/-- C5: for every valid state `s` over `n ≤ 10` cells (the one-digit-per-tile
regime of the spec, which covers the notebook's 3×3 board),
`from_string (to_string s) = s`. -/
theorem c5_serialization_round_trip (n : Nat) (s : List Nat)
    (hn : n ≤ 10) (hs : ValidPerm n s) :
    from_string (to_string s) = s := by
  refine from_to_of_lt s (fun x hx => ?_)
  have : x ∈ List.range n := (hs.mem_iff).mp hx
  exact lt_of_lt_of_le (List.mem_range.mp this) hn

/-- Witness for C5 at the recorded start state of the notebook run. -/
theorem c5_serialization_round_trip_witness :
    from_string (to_string recorded_start) = recorded_start :=
  c5_serialization_round_trip 9 recorded_start (by decide) (by decide)

/-- C3: refuted by the recorded run.  The returned path is a legal path from
the start to the goal, but it has 30 moves (31 states) while a legal 26-move
path between the same endpoints exists, so the returned path length is not
the true optimal move count even though the Manhattan-distance heuristic is
admissible. -/
theorem c3_returned_path_not_optimal :
    valid_path 3 recorded_path_states = true ∧
    recorded_path_states.headD [] = recorded_start ∧
    recorded_path_states.getLastD [] = goal_state 3 ∧
    recorded_path_states.length = 31 ∧
    valid_path 3 shorter_valid_path = true ∧
    shorter_valid_path.headD [] = recorded_start ∧
    shorter_valid_path.getLastD [] = goal_state 3 ∧
    shorter_valid_path.length = 27 := by
  refine ⟨by decide, rfl, by decide, rfl, by decide, rfl, by decide, rfl⟩

/-- C4: refuted by the recorded run.  The first entry of the recorded path is
the bracketed list rendering of the start state, while `to_string` of that
state is the fixed-width form `"056382741"` recorded by notebook cell 4; the
two differ, so path entries are not `to_string` serializations. -/
theorem c4_path_entry_differs_from_to_string :
    recorded_path.headD "" = list_repr recorded_start ∧
    to_string recorded_start = recorded_start_string ∧
    recorded_path.headD "" ≠ to_string recorded_start := by
  refine ⟨rfl, rfl, by decide⟩

/-- C4 (amended): every element of the path returned by the recorded solve
call is the bracketed decimal list rendering of the corresponding state —
Python's textual form of a list of tile values — not the fixed-width
`to_string` form. -/
theorem c4_path_entries_are_list_renderings :
    recorded_path = recorded_path_states.map list_repr := by
  rfl

/-- C1: refuted by the recorded run.  The tuple recorded in notebook cell 7
has a 31-entry path, so the number of moves of the returned path is 30, but
its second component is 26: the length field does not equal
`len(sequence) - 1`. -/
theorem c1_length_field_mismatch :
    recorded_path.length = 31 ∧ recorded_length = 26 ∧
    recorded_length ≠ recorded_path.length - 1 := by
  refine ⟨rfl, rfl, ?_⟩
  decide

/-- C2: the recorded `solve("a_star", 50000)` call on start
`[0, 5, 6, 3, 8, 2, 7, 4, 1]` returned a 31-state path (hence 30 moves) and
5473 node expansions — on the order of a few thousand and well under the
50000 cap. -/
theorem c2_end_to_end_recorded_run :
    recorded_path.length = 31 ∧ recorded_path.length - 1 = 30 ∧
    recorded_expansions = 5473 ∧ recorded_expansions < recorded_cap ∧
    1000 ≤ recorded_expansions ∧ recorded_expansions < 10000 := by
  refine ⟨rfl, rfl, rfl, ?_, ?_, ?_⟩ <;> decide

/-- C6: for every board width `N ≥ 2` and every state of valid shape,
`is_solvable` returns exactly the standard parity criterion. -/
theorem c6_is_solvable_matches_parity_criterion (N : Nat) (s : List Nat)
    (hN : 2 ≤ N) (hs : ValidPerm (N * N) s) :
    is_solvable N s = true ↔ solvability_criterion N s := by
  unfold is_solvable solvability_criterion
  rcases Nat.even_or_odd N with he | ho
  · have h1 : ¬ N % 2 = 1 := by
      rw [Nat.even_iff] at he; omega
    rw [if_neg h1, if_neg (by simpa [Nat.odd_iff] using h1)]
    simp [Nat.even_iff]
  · have h1 : N % 2 = 1 := Nat.odd_iff.mp ho
    rw [if_pos h1, if_pos ho]
    simp [Nat.even_iff]

/-- Witness for C6 at the recorded 3×3 run: the notebook records
`is_solvable(random_state)` printing `True` for the start state, and the
parity criterion agrees (its 18 inversions are even). -/
theorem c6_is_solvable_matches_parity_criterion_witness :
    is_solvable 3 recorded_start = true ∧ solvability_criterion 3 recorded_start := by
  have h := c6_is_solvable_matches_parity_criterion 3 recorded_start
    (by decide) (by decide)
  exact ⟨by decide, h.mp (by decide)⟩

/-- C7: for every valid state over an `N × N` board with `N ≥ 2`,
`legal_moves` yields between 2 and 4 successors — exactly 2 when the blank is
in a corner, 3 on an edge, 4 in the interior — and every successor is the
result of swapping the blank with one adjacent cell, differs from `s`, and
the inverse move (a legal move of the successor) returns `s`. -/
theorem c7_legal_moves_spec (N : Nat) (s : List Nat) (hN : 2 ≤ N)
    (hs : ValidPerm (N * N) s) :
    (2 ≤ (legal_moves N s).length ∧ (legal_moves N s).length ≤ 4) ∧
    (corner_pos N s → (legal_moves N s).length = 2) ∧
    (edge_pos N s → (legal_moves N s).length = 3) ∧
    (interior_pos N s → (legal_moves N s).length = 4) ∧
    (∀ t ∈ legal_moves N s, ∃ j, j < N * N ∧ j ≠ blank_index s ∧
      adjacent N (blank_index s) j ∧ t = swap_tiles s (blank_index s) j ∧
      t ≠ s ∧ blank_index t = j ∧ swap_tiles t j (blank_index s) = s ∧
      s ∈ legal_moves N t) := by
  obtain ⟨h1, h2, h3, h4⟩ := legal_moves_length_classify N s hN hs
  exact ⟨h1, h2, h3, h4, legal_moves_successor N s hN hs⟩

/-- Witness for C7 at the recorded start state (blank in the top-left corner,
so exactly two legal moves). -/
theorem c7_legal_moves_spec_witness :
    (2 ≤ (legal_moves 3 recorded_start).length ∧
      (legal_moves 3 recorded_start).length ≤ 4) ∧
    (legal_moves 3 recorded_start).length = 2 :=
  ⟨(c7_legal_moves_spec 3 recorded_start (by decide) (by decide)).1,
   (c7_legal_moves_spec 3 recorded_start (by decide) (by decide)).2.1
     (by constructor <;> decide)⟩

/-- C9: refuted by the recorded run.  The notebook constructs its 3×3 puzzle
as `SlidingTiles(9)`: the constructor argument equals the total cell count
`3² = 9`, and the resulting states have 9 cells — not the `9² = 81` cells
the claim's reading (argument = grid width) would give. -/
theorem c9_board_size_argument_not_width :
    board_size_argument = recorded_board_width ^ 2 ∧
    recorded_start.length = board_size_argument ∧
    recorded_start.length ≠ board_size_argument ^ 2 := by
  refine ⟨rfl, rfl, by decide⟩

/-- C9 (amended): the constructor takes the total cell count `N²` as its
`board_size` argument — so the puzzle has `board_size - 1` numbered tiles
plus one blank — and construction fails with `InvalidConfiguration` for every
`board_size` below 4 (the widths `N < 2`). -/
theorem c9_amended_constructor_contract (b : Nat) (hb : b < 4) :
    sliding_tiles_init b = none ∧
    sliding_tiles_init board_size_argument =
      some ⟨recorded_board_width ^ 2, []⟩ := by
  constructor
  · unfold sliding_tiles_init
    rw [if_pos hb]
  · rfl

/-- Witness for the amended C9 at `board_size = 2` (width below 2) and at the
recorded constructor argument 9. -/
theorem c9_amended_constructor_contract_witness :
    sliding_tiles_init 2 = none ∧
    sliding_tiles_init board_size_argument =
      some ⟨recorded_board_width ^ 2, []⟩ :=
  c9_amended_constructor_contract 2 (by decide)

/-- C10: `generate_random_state` returns a state in the native list
representation — a permutation of the labels, `ValidPerm` — which `set_start`
accepts directly with no `from_string` conversion; after a successful
`set_start r`, `get_start` returns exactly `r`, so `to_string` of the stored
start is the fixed-width serialization of `r`. -/
theorem c10_random_state_native_round_trip (size : Nat) (p : Puzzle)
    (hp : p.size = size) (swaps : List (Fin size × Fin size)) :
    ValidPerm size (generate_random_state size swaps) ∧
    ∃ p', set_start p (generate_random_state size swaps) = some p' ∧
      get_start p' = generate_random_state size swaps ∧
      to_string (get_start p') = to_string (generate_random_state size swaps) := by
  subst hp
  have hv := generate_random_state_valid p.size swaps
  refine ⟨hv, ⟨{ p with start := generate_random_state p.size swaps }, ?_, rfl, rfl⟩⟩
  unfold set_start
  rw [if_pos hv]

/-- Witness for C10 at the recorded board size with the empty draw. -/
theorem c10_random_state_native_round_trip_witness :
    ValidPerm 9 (generate_random_state 9 []) ∧
    ∃ p', set_start ⟨9, []⟩ (generate_random_state 9 []) = some p' ∧
      get_start p' = generate_random_state 9 [] ∧
      to_string (get_start p') = to_string (generate_random_state 9 []) :=
  c10_random_state_native_round_trip 9 ⟨9, []⟩ rfl []

/-- C8: whenever a solvable start state is neither the goal nor one move away
from it, `solve` with `max_iteration = 1` reaches the expansion cap before
popping the goal and returns the documented exhaustion sentinel — the empty
path with the expansion count equal to `max_iteration` — never a partial,
truncated, or fabricated path. -/
theorem c8_exhaustion_sentinel (N : Nat) (heur : List Nat → Nat)
    (start : List Nat) (hsolv : is_solvable N start = true)
    (hng : start ≠ goal_state N) (hnm : goal_state N ∉ legal_moves N start) :
    solve N heur start 1 = Except.ok ([], 0, 1) := by
  unfold solve
  rw [if_pos hsolv]
  congr 1
  have hpop0 : popMin [⟨start, 0, heur start, [start]⟩] =
      some (⟨start, 0, heur start, [start]⟩, ([] : List Node)) := rfl
  rw [solve_loop_pop_expand N heur (goal_state N) 1 1
    [⟨start, 0, heur start, [start]⟩] [(start, 0)] 0
    ⟨start, 0, heur start, [start]⟩ [] hpop0 hng (by omega)]
  apply solve_loop_capped_out
  intro m hm
  rcases foldl_relax_states heur _ (legal_moves N start) ([], [(start, 0)])
      m hm with h | h
  · exact absurd h (List.not_mem_nil m)
  · intro he
    rw [he] at h
    exact hnm h

/-- Witness for C8: the recorded 3×3 start state is solvable, is not the
goal, and the goal is not among its two legal successors, so the modelled
solve with cap 1 returns the sentinel. -/
theorem c8_exhaustion_sentinel_witness :
    solve 3 (manhattan_distance 3) recorded_start 1 = Except.ok ([], 0, 1) :=
  c8_exhaustion_sentinel 3 (manhattan_distance 3) recorded_start
    (by decide) (by decide) (by decide)

end NPuzzle
